import Mathlib

/-!
Shallow embedding of `scipy/optimize/_linprog.py` (two-phase dense-tableau
simplex solver) for checking its natural-language specification.

Numbers: tableau entries are exact rationals, represented by the fraction
type `Frac` (integer numerator, positive integer denominator, NOT reduced
to lowest terms; all comparisons are value comparisons by
cross-multiplication, so `Frac` is an exact model of the real-number
values the float64 code manipulates on the small inputs used here, while
staying kernel-computable — `ℚ`'s gcd-normalizing arithmetic does not
reduce in the kernel).  Every `Frac` built by the solver from inputs with
positive denominators again has a positive denominator: sums, products and
negations preserve it, and the only divisions performed are by
ratio-test-selected pivot elements, which are strictly positive.

Bound values, which may be `±inf` in numpy, are modelled by `ERat`.
Python exceptions (`IndexError`, `TypeError`, `ValueError` raised by
numpy) are modelled by `Except String` / an `exn` outcome; the solver's
`Result` record is `LPResult`.  The per-iteration callback is modelled by
a ghost trace of `CBEntry` payloads recording exactly what `lpsimplex`
would pass to a supplied callback (tableau snapshot taken before the
pivot, iteration number, phase, pivot coordinates, `complete` flag).
-/

namespace Linprog

/-- An exact (unnormalized) fraction `num / den`; `den` is positive in all
values the solver manipulates. -/
structure Frac where
  num : ℤ
  den : ℤ
deriving DecidableEq, Repr

instance (n : ℕ) : OfNat Frac n := ⟨⟨(n : ℤ), 1⟩⟩

/-- Value equality: `a.num / a.den = b.num / b.den` by cross-multiplication
(valid for positive denominators). -/
def Frac.beqv (a b : Frac) : Bool := a.num * b.den == b.num * a.den

instance : BEq Frac := ⟨Frac.beqv⟩

/-- Value `<` by cross-multiplication. -/
def Frac.blt (a b : Frac) : Bool := decide (a.num * b.den < b.num * a.den)

/-- Value `≤` by cross-multiplication. -/
def Frac.ble (a b : Frac) : Bool := decide (a.num * b.den ≤ b.num * a.den)

instance : LT Frac := ⟨fun a b => Frac.blt a b = true⟩

instance : LE Frac := ⟨fun a b => Frac.ble a b = true⟩

instance (a b : Frac) : Decidable (a < b) :=
  inferInstanceAs (Decidable (Frac.blt a b = true))

instance (a b : Frac) : Decidable (a ≤ b) :=
  inferInstanceAs (Decidable (Frac.ble a b = true))

instance : Neg Frac := ⟨fun a => ⟨-a.num, a.den⟩⟩

instance : Add Frac := ⟨fun a b => ⟨a.num * b.den + b.num * a.den, a.den * b.den⟩⟩

instance : Sub Frac := ⟨fun a b => ⟨a.num * b.den - b.num * a.den, a.den * b.den⟩⟩

instance : Mul Frac := ⟨fun a b => ⟨a.num * b.num, a.den * b.den⟩⟩

/-- Division, with the sign moved into the numerator so the denominator of
the result is again positive (junk when `b = 0`; the solver only divides
by strictly positive pivot elements). -/
instance : Div Frac := ⟨fun a b =>
  if b.num < 0 then ⟨-(a.num * b.den), a.den * -b.num⟩
  else ⟨a.num * b.den, a.den * b.num⟩⟩

/-- `np.abs`. -/
def Frac.absF (a : Frac) : Frac := ⟨|a.num|, a.den⟩

/-- Extended rationals: the value set of the numpy bound arrays `L`, `U`
(`-np.inf`, finite, `np.inf`).  No NaN is needed: the solver never
produces one on the inputs modelled here. -/
inductive ERat where
  | negInf : ERat
  | fin    : Frac → ERat
  | posInf : ERat
deriving DecidableEq, Repr

/-- Strict `<` on `ERat`, matching IEEE comparisons on `±inf` (no NaN). -/
def ERat.ltB : ERat → ERat → Bool
  | .negInf, .negInf => false
  | .negInf, _       => true
  | .fin a,  .fin b  => Frac.blt a b
  | .fin _,  .posInf => true
  | .fin _,  .negInf => false
  | .posInf, _       => false

/-- `np.isfinite`. -/
def ERat.isFiniteB : ERat → Bool
  | .fin _ => true
  | _      => false

/-- `np.isinf` (either sign). -/
def ERat.isInfB : ERat → Bool
  | .fin _ => false
  | _      => true

/-- The value of a finite `ERat` (junk 0 on `±inf`; only used under an
`isFiniteB` guard or as the `ma.array(..., fill_value=0.0).filled()`
masked fill of line 907). -/
def ERat.toQ : ERat → Frac
  | .fin q => q
  | _      => 0

instance {ε α : Type} [DecidableEq ε] [DecidableEq α] : DecidableEq (Except ε α) :=
  fun a b =>
    match a, b with
    | .error e, .error f =>
      if h : e = f then .isTrue (by rw [h])
      else .isFalse (fun hc => h (Except.error.inj hc))
    | .error _, .ok _ => .isFalse (fun hc => Except.noConfusion hc)
    | .ok _, .error _ => .isFalse (fun hc => Except.noConfusion hc)
    | .ok x, .ok y =>
      if h : x = y then .isTrue (by rw [h])
      else .isFalse (fun hc => h (Except.ok.inj hc))

/-- A dense 2-D numpy array of floats: list of rows.  All arrays built by
the solver are rectangular. -/
abbrev Mat := List (List Frac)

/-- `T[i, j]` (junk 0 out of range; in-range on every use by the solver). -/
def entryAt (T : Mat) (i j : ℕ) : Frac := (T.getD i []).getD j 0

/-- `T.shape[1]`. -/
def numCols (T : Mat) : ℕ := (T.headD []).length

/-- `T[r, -1]`: the RHS entry of row `r`. -/
def rowRHS (T : Mat) (r : ℕ) : Frac := (T.getD r []).getLastD 0

/-- `T[-1, -1]`: bottom-right cell (current objective / pseudo-objective
value). -/
def lastEntry (T : Mat) : Frac := (T.getLastD []).getLastD 0

/-- `T[-1, :-1]`: the active objective row without the RHS column. -/
def lastRowCoeffs (T : Mat) : List Frac := (T.getLastD []).dropLast

/-- `T[:, j]` as a list over all rows. -/
def colEntries (T : Mat) (j : ℕ) : List Frac := T.map (fun r => r.getD j 0)

/-- `np.all(A == B)` for same-shaped arrays: entrywise value equality. -/
def matEqv (A B : Mat) : Bool :=
  (A.zip B).all (fun p => (p.1.zip p.2).all (fun q => q.1 == q.2))

/-- Auxiliary scan for `np.argmin`: first index attaining the minimum. -/
def argminFirstAux : List Frac → ℕ → ℕ → Frac → ℕ
  | [], _, bi, _ => bi
  | q :: qs, i, bi, bv =>
      if Frac.blt q bv then argminFirstAux qs (i + 1) i q
      else argminFirstAux qs (i + 1) bi bv

/-- `np.argmin`: index of the first occurrence of the minimum (0 on the
empty list, which the solver never passes). -/
def argminFirst : List Frac → ℕ
  | [] => 0
  | q :: qs => argminFirstAux qs 1 0 q

/-- Stable insertion into a list sorted ascending by key `f`. -/
def insSorted (f : α → Frac) (a : α) : List α → List α
  | [] => [a]
  | b :: bs => if Frac.ble (f a) (f b) then a :: b :: bs else b :: insSorted f a bs

/-- Stable ascending sort by key `f` (models `np.argsort`; the tableaus in
the concrete theorems below have no key ties, so the unstable numpy
quicksort and this stable sort agree there). -/
def sortByKey (f : α → Frac) (l : List α) : List α := l.foldr (insSorted f) []

/-- `_get_basics` basic-column test, lines 162-164: the WHOLE column
(objective rows included) must contain exactly one entry equal to `1.0`
and `n-1` entries equal to `0.0`. -/
def isBasicCol (T : Mat) (j : ℕ) : Bool :=
  ((colEntries T j).count 1 == 1) && ((colEntries T j).count 0 == T.length - 1)

/-- `np.nonzero(tableau[:-1, col])[0][0]`, line 166: first row, excluding
the last row, with a nonzero entry in column `col` (`none` models the
`IndexError` when there is no such row). -/
def firstNonzeroRow (T : Mat) (j : ℕ) : Option ℕ :=
  ((colEntries T j).dropLast).findIdx? (fun q => q != 0)

/-- `Option`-valued map over a list, failing if any element fails: models a
Python loop that may raise. -/
def omap (f : α → Option β) : List α → Option (List β)
  | [] => some []
  | a :: as =>
    match f a, omap f as with
    | some b, some bs => some (b :: bs)
    | _, _ => none

/-- `_get_basics` (lines 139-169): the `(column index, value)` pairs of the
columns the code identifies as basic; `none` models the `IndexError`
raised at line 166 when a qualifying column has its 1 in the last row. -/
def getBasics (T : Mat) : Option (List (ℕ × Frac)) :=
  omap (fun j => (firstNonzeroRow T j).map (fun r => (j, rowRHS T r)))
       ((List.range (numCols T - 1)).filter (fun j => isBasicCol T j))

/-- Modelled from the spec (§3 Basis): a column is basic if it has exactly
one entry equal to 1 and all other entries EXCLUDING the `nObj` objective
rows (the last `nObj` rows) equal to 0.  This is the spec's wording, kept
separate from `isBasicCol` (the code's test) for comparison. -/
def specIsBasicCol (T : Mat) (nObj : ℕ) (j : ℕ) : Bool :=
  let col := (colEntries T j).take (T.length - nObj)
  (col.count 1 == 1) && (col.count 0 == col.length - 1)

/-- Lines 372-378: write the basic values whose column index is `< n` into
a zero vector, stopping at the first index `≥ n` (the `break`). -/
def setX : List Frac → List (ℕ × Frac) → ℕ → List Frac
  | x, [], _ => x
  | x, (i, v) :: rest, n => if i < n then setX (x.set i v) rest n else x

/-- The solution vector read out of a tableau: zeros overwritten by the
basic values at structural indices. -/
def extractX (n : ℕ) (bs : List (ℕ × Frac)) : List Frac :=
  setX (List.replicate n 0) bs n

/-- One callback payload (the kwargs of lines 346-352 that the claims talk
about): pre-pivot tableau snapshot, iteration number, phase, chosen pivot,
and the `complete` flag `(not status is None) and phase == 2`. -/
structure CBEntry where
  tab : Mat
  nit : ℕ
  phase : ℕ
  pivot : ℕ × ℕ
  complete : Bool
deriving DecidableEq, Repr

/-- How the main `while` loop of `lpsimplex` ended: `brk` is the `break` at
line 328 (unbounded, status 3); `fell` is a normal exit, after which the
`while ... else` clause (lines 364-370) decides between status 1 and 0. -/
inductive LoopExit where
  | brk  : LoopExit
  | fell : LoopExit
deriving DecidableEq, Repr

/-- State returned by the loop. -/
structure LoopOut where
  T : Mat
  nit : ℕ
  trace : List CBEntry
  exit : LoopExit
deriving DecidableEq, Repr

/-- Sorted candidate list of the ratio test, lines 298-319: eligible rows
(`[:-2]` in phase 1, `[:-1]` otherwise) sorted by their pivot-column
value, restricted to strictly positive pivot-column values, then sorted by
the ratio RHS / value; only the original row indices are kept
(`[:, :1]`). -/
def ratioCands (T : Mat) (phase : ℕ) (pivcol : ℕ) : List ℕ :=
  let s0 : ℕ := if phase = 1 then 2 else 1
  let sorted1 := sortByKey (fun r => entryAt T r pivcol) (List.range (T.length - s0))
  let pos := sorted1.filter (fun r => Frac.blt 0 (entryAt T r pivcol))
  sortByKey (fun r => rowRHS T r / entryAt T r pivcol) pos

/-- Gauss-Jordan pivot, lines 355-360: divide the pivot row by the pivot
element, then subtract `pivot-column coefficient × normalized pivot row`
from every other row. -/
def pivotAt (T : Mat) (pr pc : ℕ) : Mat :=
  let pv := entryAt T pr pc
  let prow := (T.getD pr []).map (fun a => a / pv)
  T.mapIdx (fun i row =>
    if i = pr then prow
    else row.zipWith (fun a p => a - p * entryAt T i pc) prow)

/-- `np.all(tableau[-1, :-1] >= -tol)`, line 333. -/
def allGeNegTol (T : Mat) (tol : Frac) : Bool :=
  (lastRowCoeffs T).all (fun q => Frac.ble (-tol) q)

/-- The main `while nit < maxiter and status is None` loop of `lpsimplex`
(lines 287-362), as fuel recursion (`fuel = maxiter - nit` at entry, so
the fuel-0 case coincides with the loop guard failing).  Per pass, in
source order: cycle detection against the entry snapshot `T0` (lines
289-291), entering column by `argmin` (line 294), ratio-test candidate
list and selection at index `cycle` or `break` with status 3 (lines
298-328), cycle counter reset (lines 330-331), optimality test (lines
333-334), callback payload (lines 336-352), and the pivot plus `nit`
increment when no status was determined (lines 354-362). -/
def simplexLoop (T0 : Mat) (n maxiter phase : ℕ) (tol : Frac) :
    ℕ → Mat → ℕ → ℕ → LoopOut
  | 0, T, nit, _ => ⟨T, nit, [], .fell⟩
  | fuel + 1, T, nit, cycle =>
    if maxiter ≤ nit then ⟨T, nit, [], .fell⟩
    else
      let cyc := if 2 ^ n < nit ∧ matEqv T T0 = true then cycle + 1 else cycle
      let pivcol := argminFirst (lastRowCoeffs T)
      let cands := ratioCands T phase pivcol
      match cands.get? cyc with
      | none => ⟨T, nit, [], .brk⟩
      | some pivrow =>
        let opt := allGeNegTol T tol
        let e : CBEntry := ⟨T, nit, phase, (pivrow, pivcol), opt && (phase == 2)⟩
        if opt then ⟨T, nit, [e], .fell⟩
        else
          let out := simplexLoop T0 n maxiter phase tol fuel
                       (pivotAt T pivrow pivcol) (nit + 1) 0
          ⟨out.T, out.nit, e :: out.trace, out.exit⟩

/-- Everything `lpsimplex` computes before the final solution extraction:
final tableau, iteration count, termination status and callback trace. -/
structure CoreOut where
  T : Mat
  nit : ℕ
  status : ℤ
  trace : List CBEntry
deriving DecidableEq, Repr

/-- `lpsimplex` up to (not including) the final `_get_basics` read-out,
lines 257-370.  Status: 3 if the loop broke out of the ratio test, else
the `while...else` clause gives 1 when `nit >= maxiter` and 0 otherwise.
The initial `phase not in (1,2)` check (lines 259-261) assigns
`status = -1`, but line 272 unconditionally resets `status = None`, so it
leaves no trace here: this definition IS the code after that dead store. -/
def lpsimplexCore (T : Mat) (n ns na maxiter phase : ℕ) (tol : Frac) (nit0 : ℕ) :
    CoreOut :=
  let _ := ns
  let _ := na
  let out := simplexLoop T n maxiter phase tol (maxiter - nit0) T nit0 0
  let status : ℤ :=
    match out.exit with
    | .brk => 3
    | .fell => if maxiter ≤ out.nit then 1 else 0
  ⟨out.T, out.nit, status, out.trace⟩

/-- `lpsimplex`'s return value (line 380): solution vector, iterations,
status, plus the mutated tableau and the ghost callback trace. -/
structure SimplexOut where
  x : List Frac
  nit : ℕ
  status : ℤ
  T : Mat
  trace : List CBEntry
deriving DecidableEq, Repr

/-- `lpsimplex` (lines 172-380): the loop followed by the `_get_basics`
read-out of lines 372-378; `.error` is the propagated `IndexError` when
`_get_basics` raises. -/
def lpsimplex (T : Mat) (n ns na maxiter phase : ℕ) (tol : Frac) (nit0 : ℕ) :
    Except String SimplexOut :=
  let c := lpsimplexCore T n ns na maxiter phase tol nit0
  match getBasics c.T with
  | none => .error "IndexError"
  | some bs => .ok ⟨extractX n bs, c.nit, c.status, c.T, c.trace⟩

/-- The solver's `Result` record (the fields the claims talk about; the
message string is not modelled). -/
structure LPResult where
  x : List Frac
  fval : Frac
  nit : ℕ
  status : ℤ
  success : Bool
deriving DecidableEq, Repr

/-- A call to `_linprog_simplex` either returns a `Result` or raises. -/
inductive Outcome where
  | ok : LPResult → Outcome
  | exn : String → Outcome
deriving DecidableEq, Repr

/-- The `bounds` argument: `None`, or a sequence of `(lb, ub)` pairs whose
entries may themselves be `None` (lines 670-691). -/
inductive BoundsIn where
  | absent : BoundsIn
  | given : List (Option ERat × Option ERat) → BoundsIn
deriving DecidableEq, Repr

/-- Inputs of `_linprog_simplex` (message/disp/callback arguments are not
modelled; the callback is the ghost trace inside `lpsimplex`). -/
structure LPInputs where
  c : List Frac
  Aub : Option Mat := none
  bub : Option (List Frac) := none
  Aeq : Option Mat := none
  beq : Option (List Frac) := none
  bounds : BoundsIn := .absent
  maxiter : ℕ := 20
  tol : Frac := ⟨1, 10 ^ 12⟩
deriving DecidableEq, Repr

/-- Lines 668-691, the bounds analysis.  Returns `(status, L, U)`.
`len(bounds) == 1` (line 672) is the broken branch: `n*bounds[0][0]`
multiplies the scalar bound by `n` instead of replicating it, so `L`/`U`
become 0-d arrays; with a `None` entry `n*None` raises `TypeError`; with
`lb = -inf` the later `np.concatenate([[0], L])` (line 698) raises
`ValueError`; otherwise the first `L[i]` index (line 709) raises
`IndexError` (0-d arrays are not indexable) whenever `n ≥ 1`.  A bounds
length other than 0, 1 or `n` sets status -1 but execution continues with
the untouched default `L`, `U` (lines 668-669). -/
def parseBounds (n : ℕ) : BoundsIn → Except String (ℤ × List ERat × List ERat)
  | .absent => .ok (0, List.replicate n (.fin 0), List.replicate n .posInf)
  | .given ps =>
    if ps.length = 0 then .ok (0, List.replicate n (.fin 0), List.replicate n .posInf)
    else if ps.length = 1 then
      match (ps.getD 0 (none, none)).1 with
      | none => .error "TypeError"
      | some l =>
        match (ps.getD 0 (none, none)).2 with
        | none => .error "TypeError"
        | some _ =>
          if n = 0 then .ok (0, [], [])
          else if l = .negInf then .error "ValueError"
          else .error "IndexError"
    else if ps.length ≠ n then
      .ok (-1, List.replicate n (.fin 0), List.replicate n .posInf)
    else
      .ok (0, ps.map (fun p => p.1.getD .negInf), ps.map (fun p => p.2.getD .posInf))

/-- The mutable state of `_linprog_simplex` between the bounds analysis and
the tableau construction.  `AeqC`/`AubC` track the numpy column counts
(`np.empty([0, len(cc)])` has a column count even with zero rows).  `log`
is a ghost record of the bound rows appended by lines 722-734: `(i, true)`
for a lower-bound row on variable `i`, `(i, false)` for an upper-bound
row. -/
structure PreState where
  status : ℤ
  n : ℕ
  cc : List Frac
  f0 : Frac
  L : List ERat
  U : List ERat
  Aeq : Mat
  AeqC : ℕ
  beq : List Frac
  Aub : Mat
  AubC : ℕ
  bub : List Frac
  haveFloor : Bool
  log : List (ℕ × Bool)
deriving DecidableEq, Repr

/-- Lines 729-734: append the upper-bound row `x_i <= U[i]` when `U[i]` is
finite, then reset `U[i] = inf`.  `np.vstack` raises `ValueError` when the
row length `n` differs from the existing column count. -/
def upStep (st : PreState) (i : ℕ) (ui : ERat) : Except String PreState :=
  if ui.isFiniteB then
    if st.AubC = st.n then
      .ok { st with Aub := st.Aub ++ [(List.replicate st.n 0).set i 1],
                    bub := st.bub ++ [ui.toQ],
                    U := st.U.set i .posInf,
                    log := st.log ++ [(i, false)] }
    else .error "ValueError"
  else .ok st

/-- One pass of the validation / bound-row loop, lines 708-734, for index
`i`: flag `L[i] > U[i]`, `L[i] = +inf`, `U[i] = -inf` as status -1 (three
sequential `status = -1` assignments in the source, folded here into one
disjunction with identical net state; the loop continues regardless);
append a `-x_i <= -L[i]` row and reset
`L[i] = 0` when `L[i]` is finite AND strictly positive; append an
`x_i <= U[i]` row and reset `U[i] = inf` when `U[i]` is finite. -/
def boundStep (st : PreState) (i : ℕ) : Except String PreState :=
  let li := st.L.getD i (.fin 0)
  let ui := st.U.getD i (.fin 0)
  let st3 : PreState :=
    { st with status :=
        if ERat.ltB ui li = true ∨ li = ERat.posInf ∨ ui = ERat.negInf then -1
        else st.status }
  if li.isFiniteB && Frac.blt 0 li.toQ then
    if st3.AubC = st3.n then
      upStep { st3 with Aub := st3.Aub ++ [(List.replicate st3.n 0).set i (-1)],
                        bub := st3.bub ++ [-(li.toQ)],
                        L := st3.L.set i (ERat.fin 0),
                        log := st3.log ++ [(i, true)] } i ui
    else .error "ValueError"
  else upStep st3 i ui

/-- `A[:, j]` (used by the change-of-variables loop). -/
def colOf (A : Mat) (j : ℕ) : List Frac := A.map (fun r => r.getD j 0)

/-- `A[:, 0] = A[:, 0] - A[:, j]`. -/
def subColFromCol0 (A : Mat) (j : ℕ) : Mat :=
  A.map (fun r => r.set 0 (r.getD 0 0 - r.getD j 0))

/-- One pass of the change-of-variables loop, lines 738-760, for index `i`:
for finite negative `L[i]`, shift the right-hand sides
(`b := b - A[:, i] * L[i]`) and the objective constant
(`f0 := f0 - cc[i] * L[i]`); for `L[i] = -inf`, fold the variable into the
floor column (`A[:, 0] -= A[:, i]`, `cc[0] -= cc[i]`).  Out-of-range
column reads raise `IndexError`; a length mismatch between `b` and the
column raises (numpy broadcasting of a length-1 side is not modelled; no
claim exercises it).  The dead re-check of `U[i] = -inf` (lines 757-760)
is kept verbatim. -/
def shiftStep (st : PreState) (i : ℕ) : Except String PreState :=
  let li := st.L.getD i (.fin 0)
  let step1 : Except String PreState :=
    if ERat.ltB li (.fin 0) then
      if li.isFiniteB then
        if st.AeqC ≤ i then .error "IndexError"
        else if st.beq.length ≠ st.Aeq.length then .error "ValueError"
        else if st.AubC ≤ i then .error "IndexError"
        else if st.bub.length ≠ st.Aub.length then .error "ValueError"
        else .ok { st with
          beq := List.zipWith (fun b a => b - a * li.toQ) st.beq (colOf st.Aeq i),
          bub := List.zipWith (fun b a => b - a * li.toQ) st.bub (colOf st.Aub i),
          f0 := st.f0 - (st.cc.getD i 0) * li.toQ }
      else
        if st.AeqC ≤ i then .error "IndexError"
        else if st.AubC ≤ i then .error "IndexError"
        else .ok { st with
          Aeq := subColFromCol0 st.Aeq i,
          Aub := subColFromCol0 st.Aub i,
          cc := st.cc.set 0 (st.cc.getD 0 0 - st.cc.getD i 0) }
    else .ok st
  match step1 with
  | .error e => .error e
  | .ok st4 =>
    .ok (if st4.U.getD i (.fin 0) = ERat.negInf then { st4 with status := -1 } else st4)

/-- Sequence a fallible loop body over a list of indices. -/
def foldE (f : PreState → ℕ → Except String PreState) :
    PreState → List ℕ → Except String PreState
  | st, [] => .ok st
  | st, i :: is =>
    match f st i with
    | .error e => .error e
    | .ok st2 => foldE f st2 is

/-- Lines 643-812 of `_linprog_simplex`: argument conversion, bounds
analysis, floor-variable insertion (lines 693-703), the validation /
bound-row loop, the change-of-variables loop, and the shape checks
(lines 776-812).  Does not return early: like the source, it only records
`status = -1`; the caller short-circuits on it. -/
def preprocess (I : LPInputs) : Except String PreState :=
  let n0 := I.c.length
  let Aeq0 := I.Aeq.getD []
  let AeqC0 := match I.Aeq with | none => n0 | some A => (A.headD []).length
  let Aub0 := I.Aub.getD []
  let AubC0 := match I.Aub with | none => n0 | some A => (A.headD []).length
  let beq0 := I.beq.getD []
  let bub0 := I.bub.getD []
  match parseBounds n0 I.bounds with
  | .error e => .error e
  | .ok (st0, L, U) =>
    let hasFree := L.contains ERat.negInf
    let st : PreState :=
      if hasFree then
        ⟨st0, n0 + 1, 0 :: I.c, 0, .fin 0 :: L, .posInf :: U,
         Aeq0.map (fun r => 0 :: r), AeqC0 + 1, beq0,
         Aub0.map (fun r => 0 :: r), AubC0 + 1, bub0, true, []⟩
      else ⟨st0, n0, I.c, 0, L, U, Aeq0, AeqC0, beq0, Aub0, AubC0, bub0, false, []⟩
    match foldE boundStep st (List.range st.n) with
    | .error e => .error e
    | .ok st =>
      match foldE shiftStep st (List.range st.n) with
      | .error e => .error e
      | .ok st =>
        let meq := st.beq.length
        let mub := st.bub.length
        let st := if st.Aeq.length ≠ meq then { st with status := -1 } else st
        let st := if st.Aub.length ≠ mub then { st with status := -1 } else st
        let st := if 0 < st.AeqC ∧ st.AeqC ≠ st.n then { st with status := -1 } else st
        let st := if 0 < st.AubC ∧ st.AubC ≠ st.n then { st with status := -1 } else st
        .ok st

/-- Lines 821-860: assemble the Phase 1 tableau.  Equality rows first, then
inequality rows with the slack identity block; rows with negative RHS are
negated whole (lines 846-849, before the artificial block is written);
artificial identity block on every constraint row; objective row
`[cc | 0 | 0 | f0]`; pseudo-objective row = artificial-block ones minus
the sum of all constraint rows (lines 854-860). -/
def buildTableau (st : PreState) : Mat :=
  let n := st.n
  let meq := st.beq.length
  let mub := st.bub.length
  let ns := mub
  let na := meq + mub
  let eqRow (r : ℕ) : List Frac :=
    (List.range n).map (fun j => (st.Aeq.getD r []).getD j 0) ++
      List.replicate ns 0 ++ List.replicate na 0 ++ [st.beq.getD r 0]
  let ubRow (r : ℕ) : List Frac :=
    (List.range n).map (fun j => (st.Aub.getD r []).getD j 0) ++
      (List.replicate ns 0).set r 1 ++ List.replicate na 0 ++ [st.bub.getD r 0]
  let rows0 := (List.range meq).map eqRow ++ (List.range mub).map ubRow
  let rows1 := rows0.map (fun row =>
    if Frac.blt (row.getLastD 0) 0 then row.map (fun a => -a) else row)
  let rows2 := rows1.mapIdx (fun i row => row.set (n + ns + i) 1)
  let objRow := st.cc ++ List.replicate (ns + na) 0 ++ [st.f0]
  let pseudo0 : List Frac := List.replicate (n + ns) 0 ++ List.replicate na 1 ++ [0]
  let pseudo := rows2.foldl (fun p row => List.zipWith (fun a b => a - b) p row) pseudo0
  rows2 ++ [objRow, pseudo]

/-- `T[:-1, :]` followed by deleting columns `[a, b)` from every row:
the Phase 1 → 2 reduction of lines 884-886. -/
def dropArtifCols (T : Mat) (a b : ℕ) : Mat :=
  (T.dropLast).map (fun row => row.take a ++ row.drop b)

/-- Line 907: `ma.array(L, mask=np.isinf(L), fill_value=0.0).filled()`. -/
def maskFill (L : List ERat) : List Frac :=
  L.map (fun e => if e.isFiniteB then e.toQ else 0)

/-- Lines 912-916: subtract the floor variable from every variable whose
lower bound is infinite, then drop the floor slot. -/
def floorFix (n : ℕ) (L : List ERat) (x : List Frac) : List Frac :=
  ((List.range n).map (fun i =>
    if 1 ≤ i ∧ (L.getD i (.fin 0)).isInfB = true then x.getD i 0 - x.getD 0 0
    else x.getD i 0)).drop 1

/-- Lines 882-932: the Phase 1 → Phase 2 transition and everything after.
If the pseudo-objective (bottom-right cell) is within `tol` of zero, the
pseudo row and the artificial columns are dropped; otherwise
`status := 2`.  Any nonzero status then returns immediately (lines
891-896) with `success = False`; otherwise Phase 2 runs on the reduced
tableau continuing the iteration counter, the bound shifts are reversed,
the floor variable is back-substituted, and the final `Result` is built.
The second component records whether the Phase 2 `lpsimplex` call was
made. -/
def afterPhase1 (n maxiter ns na : ℕ) (tol : Frac) (L : List ERat) (hf : Bool)
    (T : Mat) (x1 : List Frac) (nit1 : ℕ) (st1 : ℤ) : Outcome × Bool :=
  let feas := Frac.blt (Frac.absF (lastEntry T)) tol
  let T2 := if feas then dropArtifCols T (n + ns) (n + ns + na) else T
  let st2 := if feas then st1 else 2
  if st2 ≠ 0 then
    (.ok ⟨x1, -(lastEntry T2), nit1, st2, false⟩, false)
  else
    match lpsimplex T2 n ns na maxiter 2 tol nit1 with
    | .error e => (.exn e, true)
    | .ok p2 =>
      let xa := List.zipWith (fun a b => a + b) p2.x (maskFill L)
      let xb := if hf then floorFix n L xa else xa
      (.ok ⟨xb, -(lastEntry p2.T), p2.nit, p2.status, decide (p2.status = 0)⟩, true)

/-- `_linprog_simplex` (lines 525-932).  When preprocessing records a
nonzero status the solver returns `Result(x=np.zeros_like(cc), fun=0.0,
nit=0, status=status, success=False)` without building a tableau (lines
814-819); otherwise it builds the tableau, runs Phase 1, and hands over to
`afterPhase1`.  The boolean is the ghost "Phase 2 was entered" flag. -/
def linprogSimplex (I : LPInputs) : Outcome × Bool :=
  match preprocess I with
  | .error e => (.exn e, false)
  | .ok st =>
    if st.status ≠ 0 then
      (.ok ⟨List.replicate st.cc.length 0, 0, 0, st.status, false⟩, false)
    else
      let ns := st.bub.length
      let na := st.beq.length + st.bub.length
      let T := buildTableau st
      match lpsimplex T st.n ns na I.maxiter 1 I.tol 0 with
      | .error e => (.exn e, false)
      | .ok p1 =>
        afterPhase1 st.n I.maxiter ns na I.tol st.L st.haveFloor p1.T p1.x p1.nit p1.status

/-- The solver's returned outcome. -/
def solveLP (I : LPInputs) : Outcome := (linprogSimplex I).1

/-- Ghost flag: did this call enter Phase 2? -/
def ranPhase2 (I : LPInputs) : Bool := (linprogSimplex I).2

/-- The status recorded by preprocessing (0 when preprocessing raised:
a raised call never reaches the status short-circuit). -/
def preStatusOf (I : LPInputs) : ℤ :=
  match preprocess I with
  | .ok st => st.status
  | .error _ => 0

/-- Length of the (possibly floor-extended) objective vector after
preprocessing: the length of `np.zeros_like(cc)`. -/
def preCCLen (I : LPInputs) : ℕ :=
  match preprocess I with
  | .ok st => st.cc.length
  | .error _ => 0

/-- The tableau as it stands right after the Phase 1 `lpsimplex` call
(junk `[]` when preprocessing raised or short-circuited, or Phase 1
raised): used to state claims about the Phase 1 → 2 transition. -/
def phase1FinalT (I : LPInputs) : Mat :=
  match preprocess I with
  | .error _ => []
  | .ok st =>
    if st.status ≠ 0 then []
    else
      match lpsimplex (buildTableau st) st.n st.bub.length
              (st.beq.length + st.bub.length) I.maxiter 1 I.tol 0 with
      | .error _ => []
      | .ok p1 => p1.T

/-- The condition under which lines 722-727 append a lower-bound row for
variable `i`: `np.isfinite(L[i]) and L[i] > 0`. -/
def lowAppendCond (L : List ERat) (i : ℕ) : Prop :=
  (L.getD i (.fin 0)).isFiniteB = true ∧ Frac.blt 0 (L.getD i (.fin 0)).toQ = true

/-- The condition under which lines 729-734 append an upper-bound row for
variable `i`: `np.isfinite(U[i])`. -/
def upAppendCond (U : List ERat) (i : ℕ) : Prop :=
  (U.getD i (.fin 0)).isFiniteB = true

instance (L : List ERat) (i : ℕ) : Decidable (lowAppendCond L i) :=
  inferInstanceAs (Decidable ((L.getD i (.fin 0)).isFiniteB = true ∧
    Frac.blt 0 (L.getD i (.fin 0)).toQ = true))

instance (U : List ERat) (i : ℕ) : Decidable (upAppendCond U i) :=
  inferInstanceAs (Decidable ((U.getD i (.fin 0)).isFiniteB = true))

/-- Example pre-state: one variable with the finite NEGATIVE lower bound
`-1` (and no constraints yet). -/
def exNegLb : PreState :=
  ⟨0, 1, [1], 0, [.fin (-1)], [.posInf], [], 1, [], [], 1, [], false, []⟩

/-- Example pre-state: two variables, lower bounds `2` and `5`, the second
with the finite upper bound `7`. -/
def exPosLb : PreState :=
  ⟨0, 2, [1, 1], 0, [.fin 2, .fin 5], [.posInf, .fin 7], [], 2, [], [], 2, [], false, []⟩

/-- The state `exPosLb` is mapped to by the validation / bound-row loop:
three bound rows appended (`-x0 <= -2`, `-x1 <= -5`, `x1 <= 7`), bounds
reset, ghost log recording the three appends. -/
def exPosLbOut : PreState :=
  ⟨0, 2, [1, 1], 0, [.fin 0, .fin 0], [.posInf, .posInf], [], 2, [],
   [[-1, 0], [0, -1], [0, 1]], 2, [-2, -5, 7], false,
   [(0, true), (1, true), (1, false)]⟩

/-- A Phase 1 tableau: one inequality constraint `x0 <= 1` with slack and
artificial columns, zero objective, pseudo-objective row below. -/
def exPh1T : Mat := [[1, 0, 1, 1, 1], [0, 0, 0, 0, 0], [-1, 0, -1, 0, -1]]

/-- The tableau `exPh1T` after its one pivot: columns 0 and 2 are basic. -/
def exBasicsT : Mat := [[1, 0, 1, 1, 1], [0, 0, 0, 0, 0], [0, 0, 0, 1, 0]]

/-- Example input: trivial problem (one variable, no constraints) with an
iteration cap of 0. -/
def exTrivCap0 : LPInputs := { c := [1], maxiter := 0 }

/-- Example input: `lb > ub` on both variables. -/
def exLbGtUb : LPInputs :=
  { c := [1, 1],
    bounds := .given [(some (.fin 2), some (.fin 1)), (some (.fin 2), some (.fin 1))] }

/-- Example input: feasible two-variable problem with an EMPTY bounds
sequence. -/
def exEmptyBounds : LPInputs :=
  { c := [0, 0], Aub := some [[1, 0]], bub := some [1], bounds := .given [] }

/-! Helper lemmas. -/

theorem zip_self_eq_map (l : List α) : l.zip l = l.map (fun a => (a, a)) := by
  induction l with
  | nil => rfl
  | cons a as ih => simp [List.zip_cons_cons, ih]

theorem matEqv_self (T : Mat) : matEqv T T = true := by
  unfold matEqv
  rw [List.all_eq_true]
  intro p hp
  rw [zip_self_eq_map] at hp
  obtain ⟨r, _, rfl⟩ := List.mem_map.mp hp
  rw [List.all_eq_true]
  intro q hq
  rw [zip_self_eq_map] at hq
  obtain ⟨a, _, rfl⟩ := List.mem_map.mp hq
  simp [BEq.beq, Frac.beqv]

theorem getD_set_ne {α : Type} (l : List α) (i j : ℕ) (a d : α) (h : i ≠ j) :
    (l.set i a).getD j d = l.getD j d := by
  induction l generalizing i j with
  | nil => simp
  | cons b bs ih =>
    cases i with
    | zero =>
      cases j with
      | zero => exact absurd rfl h
      | succ j => simp [List.set, List.getD]
    | succ i =>
      cases j with
      | zero => simp [List.set, List.getD]
      | succ j =>
        simp only [List.set, List.getD_cons_succ]
        exact ih i j (by omega)

theorem getD_replicate_zero (n j : ℕ) : (List.replicate n (0 : Frac)).getD j 0 = 0 := by
  induction n generalizing j with
  | zero => simp
  | succ n ih =>
    cases j with
    | zero => simp [List.replicate]
    | succ j =>
      simp only [List.replicate, List.getD_cons_succ]
      exact ih j

theorem getLast?_cons_of_ne_nil (a : α) (l : List α) (h : l ≠ []) :
    (a :: l).getLast? = l.getLast? := by
  cases l with
  | nil => exact absurd rfl h
  | cons b bs => simp [List.getLast?]

theorem omap_mem (f : α → Option β) (xs : List α) (ys : List β)
    (h : omap f xs = some ys) (b : β) :
    b ∈ ys ↔ ∃ a ∈ xs, f a = some b := by
  induction xs generalizing ys with
  | nil =>
    simp only [omap, Option.some.injEq] at h
    subst h
    simp
  | cons x xs ih =>
    simp only [omap] at h
    cases hx : f x with
    | none => rw [hx] at h; exact absurd h (by simp)
    | some bx =>
      rw [hx] at h
      cases hrest : omap f xs with
      | none => rw [hrest] at h; exact absurd h (by simp)
      | some bs =>
        rw [hrest] at h
        simp only [Option.some.injEq] at h
        subst h
        rw [List.mem_cons, ih bs hrest]
        constructor
        · rintro (rfl | ⟨a, ha, hfa⟩)
          · exact ⟨x, List.mem_cons_self x xs, hx⟩
          · exact ⟨a, List.mem_cons_of_mem x ha, hfa⟩
        · rintro ⟨a, ha, hfa⟩
          rcases List.mem_cons.mp ha with rfl | ha
          · rw [hx] at hfa
            exact Or.inl (Option.some.inj hfa).symm
          · exact Or.inr ⟨a, ha, hfa⟩

theorem mem_insSorted (f : α → Frac) (b a : α) (l : List α) :
    a ∈ insSorted f b l ↔ a = b ∨ a ∈ l := by
  induction l with
  | nil => simp [insSorted]
  | cons c cs ih =>
    unfold insSorted
    by_cases h : Frac.ble (f b) (f c) = true
    · simp [h]
    · simp only [if_neg h, List.mem_cons, ih]
      tauto

theorem mem_sortByKey (f : α → Frac) (l : List α) (a : α) :
    a ∈ sortByKey f l ↔ a ∈ l := by
  induction l with
  | nil => simp [sortByKey]
  | cons b bs ih =>
    unfold sortByKey at ih ⊢
    rw [List.foldr_cons, mem_insSorted, ih, List.mem_cons]

/-! Claims. -/

/-- Claim C1, counterexample.  The tableau `[[-1, 5], [0, 0]]` (phase 2,
one structural variable, one constraint row) has every objective-row
coefficient `≥ -tol` (the only coefficient is 0), so by the claim the
engine must terminate with status 0 and never report status 3.  But the
entering column chosen by argmin (column 0) has no strictly positive entry
in the eligible row, the ratio test comes up empty, and `lpsimplex`
executes the `break` of line 328 — which precedes the optimality test of
line 333 — reporting status 3 (unbounded). -/
theorem claim1_counterexample :
    allGeNegTol [[-1, 5], [0, 0]] ⟨1, 10 ^ 12⟩ = true ∧
    (lpsimplexCore [[-1, 5], [0, 0]] 1 0 0 20 2 ⟨1, 10 ^ 12⟩ 0).status = 3 := by
  decide

/-- Claim C1, amended: in any iteration of `lpsimplex`, in either phase, if
every coefficient of the active objective row excluding the RHS column is
`≥ -tol` AND the ratio test produces a candidate at the current cycle
offset (in particular whenever the entering column has a strictly positive
entry in some eligible row), the phase terminates as optimal with status 0
and no further pivot is applied; but when the candidate list is too short
the unboundedness `break` fires first and the engine reports status 3 even
for such a tableau. -/
theorem claim1_theorem (T : Mat) (n ns na maxiter phase : ℕ) (tol : Frac) (nit0 : ℕ)
    (h1 : nit0 < maxiter)
    (h2 : allGeNegTol T tol = true)
    (h3 : (if 2 ^ n < nit0 then 1 else 0) <
          (ratioCands T phase (argminFirst (lastRowCoeffs T))).length) :
    (lpsimplexCore T n ns na maxiter phase tol nit0).status = 0 ∧
    (lpsimplexCore T n ns na maxiter phase tol nit0).nit = nit0 := by
  obtain ⟨k, hk⟩ : ∃ k, maxiter - nit0 = k + 1 := ⟨maxiter - nit0 - 1, by omega⟩
  unfold lpsimplexCore
  rw [hk]
  rw [simplexLoop]
  rw [if_neg (by omega)]
  simp only [matEqv_self, and_true]
  rw [List.get?_eq_get h3]
  simp only [h2, if_pos rfl]
  constructor
  · show (if maxiter ≤ nit0 then (1 : ℤ) else 0) = 0
    rw [if_neg (show ¬maxiter ≤ nit0 by omega)]
  · rfl

/-- Claim C1, witness for the amended theorem: on `[[1, 2], [0, 0]]` the
objective coefficients are `≥ -tol`, the ratio test has a candidate, and
the engine stops immediately with status 0. -/
theorem claim1_witness :
    (lpsimplexCore [[1, 2], [0, 0]] 1 0 0 20 2 ⟨1, 10 ^ 12⟩ 0).status = 0 ∧
    (lpsimplexCore [[1, 2], [0, 0]] 1 0 0 20 2 ⟨1, 10 ^ 12⟩ 0).nit = 0 :=
  claim1_theorem [[1, 2], [0, 0]] 1 0 0 20 2 ⟨1, 10 ^ 12⟩ 0
    (by decide) (by decide) (by decide)

/-- Claim C2 (code bug): on the non-trivial problem `c = [1]`,
`A_ub = [[1]]`, `b_ub = [1]` with `maxiter = 0`, Phase 1 correctly reports
status 1 (iteration limit), but `_linprog_simplex` line 882 then tests the
untouched pseudo-objective (`|-1| >= tol`), overwrites the status with 2
("unable to find a feasible starting point") and returns it — labelling a
perfectly feasible problem infeasible and losing the documented
iteration-limit status the claim (and the spec's §8 test) requires. -/
theorem claim2_theorem :
    solveLP { c := [1], Aub := some [[1]], bub := some [1], maxiter := 0 } =
      .ok ⟨[0], 1, 0, 2, false⟩ := by
  decide

/-- Claim C3 (code bug): with the one-element bounds sequence `[(1, 2)]`
and `c = [0, 0]`, line 674 computes `L = np.asarray(n*1)` — the SCALAR
`n*lb` instead of `n` copies of `lb` — producing a 0-d array, and the
first `L[i]` subscript at line 709 raises `IndexError`; with the
equivalent two-element sequence `[(1, 2), (1, 2)]` the solver runs to a
normal result.  The two calls therefore do not produce the same result
record. -/
theorem claim3_theorem :
    solveLP { c := [0, 0], bounds := .given [(some (.fin 1), some (.fin 2))] } =
      .exn "IndexError" ∧
    solveLP { c := [0, 0],
              bounds := .given [(some (.fin 1), some (.fin 2)),
                                (some (.fin 1), some (.fin 2))] } =
      .ok ⟨[2, 2], 0, 4, 0, true⟩ := by
  decide

/-- Claim C9 (confirmed): `lpsimplex` never returns status -1 — its status
is always 0, 1 or 3 (the `phase not in (1, 2)` check's `status = -1` of
line 260 is dead, being overwritten by `status = None` at line 272) — and
with the out-of-range phase 7 the engine does not short-circuit: on
`[[1, 1], [-1, 0]]` it performs a pivot (one iteration) and terminates
with status 0. -/
theorem claim9_theorem :
    (∀ (T : Mat) (n ns na maxiter phase : ℕ) (tol : Frac) (nit0 : ℕ),
        (lpsimplexCore T n ns na maxiter phase tol nit0).status = 0 ∨
        (lpsimplexCore T n ns na maxiter phase tol nit0).status = 1 ∨
        (lpsimplexCore T n ns na maxiter phase tol nit0).status = 3) ∧
    (lpsimplexCore [[1, 1], [-1, 0]] 1 0 0 10 7 ⟨1, 10 ^ 12⟩ 0).status = 0 ∧
    (lpsimplexCore [[1, 1], [-1, 0]] 1 0 0 10 7 ⟨1, 10 ^ 12⟩ 0).nit = 1 := by
  refine ⟨?_, by decide, by decide⟩
  intro T n ns na maxiter phase tol nit0
  unfold lpsimplexCore
  simp only
  cases hex : (simplexLoop T n maxiter phase tol (maxiter - nit0) T nit0 0).exit
  · right; right; rfl
  · by_cases hle : maxiter ≤ (simplexLoop T n maxiter phase tol (maxiter - nit0) T nit0 0).nit
    · rw [if_pos hle]
      right; left; rfl
    · rw [if_neg hle]
      left; rfl

/-- Claim C10, counterexample: for `n = 1`, supplying bounds as `n` pairs
means a one-element list, which is routed to the `len(bounds) == 1` branch
(line 672); there `1*None` raises `TypeError`, so a `(None, None)` pair is
NOT accepted as a free variable when `n = 1`. -/
theorem claim10_counterexample :
    solveLP { c := [3], bounds := .given [(none, none)] } = .exn "TypeError" := by
  decide

/-- Claim C10, amended: when bounds are supplied as `n` pairs with
`n ≥ 2` (so that the list reaches the length-`n` branch of lines 682-691
rather than the broken single-pair branch), a `None` lower entry is read
as `-inf` and a `None` upper entry as `+inf`, so `(None, None)` denotes a
free variable; for `n = 1` the single-pair branch raises `TypeError` on
`None`. -/
theorem claim10_theorem (n : ℕ) (ps : List (Option ERat × Option ERat))
    (hlen : ps.length = n) (h2 : 2 ≤ n) :
    parseBounds n (.given ps) =
      .ok (0, ps.map (fun p => p.1.getD .negInf), ps.map (fun p => p.2.getD .posInf)) := by
  simp only [parseBounds]
  rw [if_neg (by omega), if_neg (by omega), if_neg (by simp [hlen])]

/-- Claim C10, witness: two `(None, None)` pairs parse to two free
variables `[-inf, inf]`. -/
theorem claim10_witness :
    parseBounds 2 (.given [(none, none), (none, none)]) =
      .ok (0, [.negInf, .negInf], [.posInf, .posInf]) :=
  claim10_theorem 2 [(none, none), (none, none)] rfl (by omega)

/-- Claim C5, counterexample.  On the trivial problem `c = [1]` (no
constraints) with `maxiter = 0`, the Phase 1 pseudo-objective IS within
tolerance of zero (`|0| < tol`), yet Phase 2 is never entered: Phase 1
returns status 1 (iteration limit), the status test of line 891 returns
immediately with status 1, refuting the claim's "Phase 2 is entered if and
only if the pseudo-objective is within tolerance of zero". -/
theorem claim5_counterexample :
    Frac.blt (Frac.absF (lastEntry (phase1FinalT exTrivCap0))) ⟨1, 10 ^ 12⟩ = true ∧
    ranPhase2 exTrivCap0 = false ∧
    solveLP exTrivCap0 = .ok ⟨[0], 0, 0, 1, false⟩ := by
  decide

/-- Claim C5, amended: after Phase 1, Phase 2 is entered if and only if the
absolute value of the pseudo-objective (bottom-right tableau cell) is
within tolerance of zero AND Phase 1 ended with status 0; in that case the
pseudo-objective row and the artificial columns are dropped and Phase 2
continues the iteration counter from Phase 1's count.  If the
pseudo-objective is not within tolerance, the solver returns immediately
with status 2 and `success = false` without running Phase 2; if it is
within tolerance but the Phase 1 status is nonzero (e.g. iteration limit),
the solver returns that status without running Phase 2. -/
theorem claim5_theorem (n maxiter ns na : ℕ) (tol : Frac) (L : List ERat) (hf : Bool)
    (T : Mat) (x1 : List Frac) (nit1 : ℕ) (st1 : ℤ) :
    ((afterPhase1 n maxiter ns na tol L hf T x1 nit1 st1).2 = true ↔
      (Frac.blt (Frac.absF (lastEntry T)) tol = true ∧ st1 = 0)) ∧
    (Frac.blt (Frac.absF (lastEntry T)) tol = false →
      afterPhase1 n maxiter ns na tol L hf T x1 nit1 st1 =
        (.ok ⟨x1, -(lastEntry T), nit1, 2, false⟩, false)) := by
  unfold afterPhase1
  by_cases hfeas : Frac.blt (Frac.absF (lastEntry T)) tol = true
  · simp only [hfeas, if_true]
    constructor
    · by_cases hst : st1 = 0
      · subst hst
        rw [if_neg (by decide)]
        cases hrun : lpsimplex (dropArtifCols T (n + ns) (n + ns + na)) n ns na maxiter 2 tol nit1
        · simp
        · simp
      · rw [if_pos hst]
        simp [hst]
    · intro hcon
      exact Bool.noConfusion hcon
  · rw [Bool.not_eq_true] at hfeas
    simp only [hfeas, Bool.false_eq_true, if_false]
    rw [if_pos (by decide : (2 : ℤ) ≠ 0)]
    simp [hfeas]

/-- Claim C5, witness: a tableau whose pseudo-objective is NOT within
tolerance makes `afterPhase1` return status 2, `success = false`, without
entering Phase 2. -/
theorem claim5_witness :
    afterPhase1 1 10 0 0 ⟨1, 10 ^ 12⟩ [] false [[5, 5]] [0] 0 0 =
      (.ok ⟨[0], -5, 0, 2, false⟩, false) :=
  (claim5_theorem 1 10 0 0 ⟨1, 10 ^ 12⟩ [] false [[5, 5]] [0] 0 0).2 (by decide)

/-- Claim C6, counterexample.  With `c = [0, 0]` (so `n = 2`) and the
bounds given as the EMPTY sequence — whose length 0 is "neither 1 nor n" —
the solver does not return status -1 with a zero solution and zero
iterations: `len(bounds) == 0` is treated like absent bounds (line 670),
and the solver runs to optimality with status 0, `success = true`, one
iteration and solution `[1, 0]`. -/
theorem claim6_counterexample :
    preStatusOf exEmptyBounds = 0 ∧
    solveLP exEmptyBounds = .ok ⟨[1, 0], 0, 1, 0, true⟩ := by
  decide

/-- Claim C6, amended: for every invalid input that the validation stage
records as status -1 (bounds length neither 0, 1 nor n — a length-0 bounds
sequence is treated as absent and is accepted —, any lb > ub, lb = +inf,
ub = -inf, or a constraint-matrix shape mismatch surviving to the shape
checks), the solver returns status -1 with a zero solution vector,
`success = false` and zero iterations, before any tableau is built or any
pivot is performed. -/
theorem claim6_theorem (I : LPInputs) (h : preStatusOf I = -1) :
    linprogSimplex I =
      (.ok ⟨List.replicate (preCCLen I) 0, 0, 0, -1, false⟩, false) := by
  cases hpre : preprocess I with
  | error e =>
    have h2 : (0 : ℤ) = -1 := by
      unfold preStatusOf at h
      rw [hpre] at h
      exact h
    exact absurd h2 (by decide)
  | ok st =>
    have h2 : st.status = -1 := by
      unfold preStatusOf at h
      rw [hpre] at h
      exact h
    simp only [linprogSimplex, preCCLen, hpre]
    rw [if_pos (show st.status ≠ 0 by rw [h2]; decide)]
    rw [h2]

/-- Claim C6, witness: `lb > ub` on both variables is flagged as status -1
and the solver short-circuits with a zero solution and zero iterations. -/
theorem claim6_witness :
    preStatusOf exLbGtUb = -1 ∧
    linprogSimplex exLbGtUb =
      (.ok ⟨List.replicate (preCCLen exLbGtUb) 0, 0, 0, -1, false⟩, false) :=
  ⟨by decide, claim6_theorem exLbGtUb (by decide)⟩

theorem boundStep_ok_spec (st st2 : PreState) (j : ℕ) (h : boundStep st j = .ok st2) :
    st2.log = st.log ++
      ((if ((st.L.getD j (.fin 0)).isFiniteB && Frac.blt 0 (st.L.getD j (.fin 0)).toQ) = true
         then [(j, true)] else []) ++
       (if (st.U.getD j (.fin 0)).isFiniteB = true then [(j, false)] else [])) ∧
    (∀ i, i ≠ j → st2.L.getD i (.fin 0) = st.L.getD i (.fin 0)) ∧
    (∀ i, i ≠ j → st2.U.getD i (.fin 0) = st.U.getD i (.fin 0)) := by
  unfold boundStep upStep at h
  by_cases hlow : ((st.L.getD j (.fin 0)).isFiniteB && Frac.blt 0 (st.L.getD j (.fin 0)).toQ) = true
  all_goals by_cases hup : (st.U.getD j (.fin 0)).isFiniteB = true
  all_goals simp only [hlow, hup, if_true, Bool.false_eq_true, if_false] at h ⊢
  all_goals (repeat' split at h)
  all_goals
    first
      | exact Except.noConfusion h
      | (injection h with h2; subst h2;
         refine ⟨?_, fun i hne => ?_, fun i hne => ?_⟩ <;>
           simp only <;>
           first
             | rw [getD_set_ne _ j i _ _ (Ne.symm hne)]
             | simp)

theorem mem_if_singleton {c : Prop} [Decidable c] {α : Type} (p q : α) :
    (p ∈ (if c then [q] else ([] : List α))) ↔ c ∧ p = q := by
  by_cases hc : c <;> simp [hc]

theorem lowAppendCond_iff (L : List ERat) (j : ℕ) :
    ((L.getD j (.fin 0)).isFiniteB && Frac.blt 0 (L.getD j (.fin 0)).toQ) = true ↔
      lowAppendCond L j := by
  rw [lowAppendCond, Bool.and_eq_true]

theorem foldE_boundStep_log (js : List ℕ) (st st2 : PreState)
    (hnd : js.Nodup) (h : foldE boundStep st js = .ok st2) (i : ℕ) (b : Bool) :
    (i, b) ∈ st2.log ↔ (i, b) ∈ st.log ∨
      (i ∈ js ∧ ((b = true ∧ lowAppendCond st.L i) ∨
                 (b = false ∧ upAppendCond st.U i))) := by
  induction js generalizing st with
  | nil =>
    simp only [foldE] at h
    injection h with h2
    subst h2
    simp
  | cons j js ih =>
    simp only [foldE] at h
    cases hstep : boundStep st j with
    | error e => rw [hstep] at h; exact Except.noConfusion h
    | ok st1 =>
      rw [hstep] at h
      obtain ⟨hlog, hL, hU⟩ := boundStep_ok_spec st st1 j hstep
      have hnd2 := List.nodup_cons.mp hnd
      rw [ih st1 hnd2.2 h, hlog]
      simp only [List.mem_append, mem_if_singleton, List.mem_cons, Prod.mk.injEq]
      by_cases hij : i = j
      · subst hij
        have hnotin : i ∉ js := hnd2.1
        simp only [hnotin, false_and, and_false, or_false, eq_self_iff_true, true_and,
          true_or, lowAppendCond_iff]
        cases b <;> simp [lowAppendCond, upAppendCond]
      · simp only [lowAppendCond, upAppendCond, hL i hij, hU i hij, hij, false_and,
          and_false, false_or, or_false]

/-- Claim C4, counterexample.  A variable with the finite NEGATIVE lower
bound `-1` gets NO appended inequality row: the validation / bound-row
loop leaves the state (constraint rows, RHS vector and ghost append log)
completely unchanged, although `-1` is finite and nonzero, refuting "this
row-append applies to every finite nonzero lb, negative as well as
positive". -/
theorem claim4_counterexample :
    foldE boundStep exNegLb (List.range 1) = .ok exNegLb ∧
    (ERat.fin (-1)).isFiniteB = true ∧ Frac.beqv (-1) 0 = false := by
  decide

/-- Claim C4, amended: during bounds normalization, a new inequality row
`-x_i <= -lb_i` is appended (and the lower bound reset to `[0, inf)`) for
exactly those variables whose lower bound is finite and strictly POSITIVE;
a finite negative lower bound appends no row (it is handled later by the
change-of-variables shift).  For each finite upper bound a row
`x_i <= ub_i` is appended (and the upper limit reset to `+inf`),
regardless of sign. -/
theorem claim4_theorem (st st2 : PreState)
    (h : foldE boundStep st (List.range st.n) = .ok st2) (h0 : st.log = []) (i : ℕ) :
    ((i, true) ∈ st2.log ↔ i < st.n ∧ lowAppendCond st.L i) ∧
    ((i, false) ∈ st2.log ↔ i < st.n ∧ upAppendCond st.U i) := by
  have hm := foldE_boundStep_log (List.range st.n) st st2 (List.nodup_range _) h
  constructor
  · rw [hm i true, h0]
    simp [List.mem_range]
  · rw [hm i false, h0]
    simp [List.mem_range]

/-- Claim C4, witness: with lower bounds `2`, `5` and upper bound `7` on
the second variable, the loop appends a lower-bound row for each variable
and an upper-bound row for the second. -/
theorem claim4_witness :
    (0, true) ∈ exPosLbOut.log ∧ (1, false) ∈ exPosLbOut.log :=
  ⟨(claim4_theorem exPosLb exPosLbOut (by decide) rfl 0).1.mpr (by decide),
   (claim4_theorem exPosLb exPosLbOut (by decide) rfl 1).2.mpr (by decide)⟩

theorem setX_getD_of_not_mem (bs : List (ℕ × Frac)) (x : List Frac) (n j : ℕ)
    (hnb : ∀ w, (j, w) ∉ bs) : (setX x bs n).getD j 0 = x.getD j 0 := by
  induction bs generalizing x with
  | nil => rfl
  | cons p rest ih =>
    obtain ⟨pi, pv⟩ := p
    unfold setX
    by_cases hpi : pi < n
    · rw [if_pos hpi]
      have hne : pi ≠ j := fun he =>
        hnb pv (by rw [← he]; exact List.mem_cons_self _ _)
      rw [ih _ (fun w hw => hnb w (List.mem_cons_of_mem _ hw))]
      exact getD_set_ne x pi j pv 0 hne
    · rw [if_neg hpi]

/-- Claim C7, counterexample.  In the tableau `[[1, 5], [2, 3]]` (one
constraint row, one objective row), column 0 satisfies the claimed
basic-column condition — one entry equal to 1 and all other entries
EXCLUDING the objective row equal to 0 (there are none) — yet
`_get_basics` does not identify it as basic (it returns no basic columns):
the code counts the 2 in the objective row against the test. -/
theorem claim7_counterexample :
    specIsBasicCol [[1, 5], [2, 3]] 1 0 = true ∧
    getBasics [[1, 5], [2, 3]] = some [] := by
  decide

/-- Claim C7, amended: a column is identified as basic by `_get_basics`
exactly when the ENTIRE column — objective rows included — has exactly one
entry equal to 1 and all of its other entries equal to 0; its reported
value is the RHS entry of the first row (excluding the last row) holding a
nonzero entry in that column (the row of the 1, whenever the 1 is not in
the last row; the read raises if it is).  Columns not reported contribute
0 to the extracted solution. -/
theorem claim7_theorem (T : Mat) (l : List (ℕ × Frac)) (n : ℕ)
    (hgb : getBasics T = some l) (j : ℕ) (v : Frac) :
    ((j, v) ∈ l ↔ j < numCols T - 1 ∧ isBasicCol T j = true ∧
      ∃ r, firstNonzeroRow T j = some r ∧ v = rowRHS T r) ∧
    (j < n → (∀ w, (j, w) ∉ l) → (extractX n l).getD j 0 = 0) := by
  have hgb2 : omap (fun j => (firstNonzeroRow T j).map (fun r => (j, rowRHS T r)))
      ((List.range (numCols T - 1)).filter (fun j => isBasicCol T j)) = some l := hgb
  constructor
  · rw [omap_mem _ _ _ hgb2]
    constructor
    · rintro ⟨a, ha, hfa⟩
      rw [List.mem_filter] at ha
      obtain ⟨har, hab⟩ := ha
      rw [List.mem_range] at har
      cases hfz : firstNonzeroRow T a with
      | none => rw [hfz] at hfa; exact Option.noConfusion hfa
      | some r =>
        rw [hfz] at hfa
        injection hfa with hpair
        rw [Prod.mk.injEq] at hpair
        obtain ⟨rfl, rfl⟩ := hpair
        exact ⟨har, hab, r, hfz, rfl⟩
    · rintro ⟨hj, hb, r, hfz, rfl⟩
      refine ⟨j, List.mem_filter.mpr ⟨List.mem_range.mpr hj, hb⟩, ?_⟩
      rw [hfz]
      rfl
  · intro hjn hnot
    unfold extractX
    rw [setX_getD_of_not_mem l (List.replicate n 0) n j hnot]
    exact getD_replicate_zero n j

/-- Claim C7, witness: in `exBasicsT` the reported basic pair `(0, 1)` is
characterized by the whole-column test, and the unreported column 1
contributes 0 to the extracted solution. -/
theorem claim7_witness :
    (0, (1 : Frac)) ∈ [((0 : ℕ), (1 : Frac)), (2, 1)] ∧
    (extractX 2 [((0 : ℕ), (1 : Frac)), (2, 1)]).getD 1 0 = 0 :=
  ⟨((claim7_theorem exBasicsT [(0, 1), (2, 1)] 2 (by decide) 0 1).1).mpr
      ⟨by decide, by decide, 0, by decide, by decide⟩,
   (claim7_theorem exBasicsT [(0, 1), (2, 1)] 2 (by decide) 1 0).2 (by decide)
      (fun w hw => by simp at hw)⟩

theorem simplexLoop_spec (T0 : Mat) (n maxiter phase : ℕ) (tol : Frac) :
    ∀ (fuel : ℕ) (T : Mat) (nit cycle : ℕ), maxiter ≤ nit + fuel →
      (∀ e ∈ (simplexLoop T0 n maxiter phase tol fuel T nit cycle).trace,
          e.complete = true →
            phase = 2 ∧
            (simplexLoop T0 n maxiter phase tol fuel T nit cycle).trace.getLast? = some e ∧
            (simplexLoop T0 n maxiter phase tol fuel T nit cycle).exit = .fell ∧
            (simplexLoop T0 n maxiter phase tol fuel T nit cycle).nit < maxiter) ∧
      ((simplexLoop T0 n maxiter phase tol fuel T nit cycle).exit = .fell ∧
          (simplexLoop T0 n maxiter phase tol fuel T nit cycle).nit < maxiter →
        ∃ e, (simplexLoop T0 n maxiter phase tol fuel T nit cycle).trace.getLast? = some e ∧
          e.complete = (phase == 2)) ∧
      nit ≤ (simplexLoop T0 n maxiter phase tol fuel T nit cycle).nit ∧
      (simplexLoop T0 n maxiter phase tol fuel T nit cycle).trace.length + nit =
        (simplexLoop T0 n maxiter phase tol fuel T nit cycle).nit +
          (if (simplexLoop T0 n maxiter phase tol fuel T nit cycle).exit = .fell ∧
              (simplexLoop T0 n maxiter phase tol fuel T nit cycle).nit < maxiter
           then 1 else 0) := by
  intro fuel
  induction fuel with
  | zero =>
    intro T nit cycle hle
    simp only [simplexLoop]
    refine ⟨?_, ?_, le_refl _, ?_⟩
    · intro e he
      exact absurd he (List.not_mem_nil e)
    · rintro ⟨_, hlt⟩
      omega
    · rw [if_neg (by rintro ⟨_, hlt⟩; omega)]
      simp
  | succ fuel ih =>
    intro T nit cycle hle
    by_cases hg : maxiter ≤ nit
    · simp only [simplexLoop, if_pos hg]
      refine ⟨?_, ?_, le_refl _, ?_⟩
      · intro e he
        exact absurd he (List.not_mem_nil e)
      · rintro ⟨_, hlt⟩
        omega
      · rw [if_neg (by rintro ⟨_, hlt⟩; omega)]
        simp
    · simp only [simplexLoop, if_neg hg]
      cases hget : (ratioCands T phase (argminFirst (lastRowCoeffs T))).get?
          (if 2 ^ n < nit ∧ matEqv T T0 = true then cycle + 1 else cycle) with
      | none =>
        simp only
        refine ⟨?_, ?_, le_refl _, ?_⟩
        · intro e he
          exact absurd he (List.not_mem_nil e)
        · rintro ⟨hex, _⟩
          exact LoopExit.noConfusion hex
        · rw [if_neg (by rintro ⟨hex, _⟩; exact LoopExit.noConfusion hex)]
          simp
      | some pivrow =>
        by_cases hopt : allGeNegTol T tol = true
        · simp only [hopt, if_true]
          refine ⟨?_, ?_, le_refl _, ?_⟩
          · intro e he hce
            rw [List.mem_singleton] at he
            subst he
            simp only [hopt, Bool.true_and] at hce
            refine ⟨by rwa [beq_iff_eq] at hce, by simp, by simp, by omega⟩
          · intro _
            exact ⟨_, rfl, by simp [hopt]⟩
          · rw [if_pos ⟨trivial, by omega⟩]
            simp only [List.length_singleton]
            omega
        · rw [Bool.not_eq_true] at hopt
          simp only [hopt, Bool.false_eq_true, if_false]
          have ihx := ih (pivotAt T pivrow (argminFirst (lastRowCoeffs T))) (nit + 1) 0
            (by omega)
          obtain ⟨ih1, ih2, ih3, ih4⟩ := ihx
          refine ⟨?_, ?_, ?_, ?_⟩
          · intro e1 he1 hce1
            rcases List.mem_cons.mp he1 with he | he
            · subst he
              simp only [hopt, Bool.false_and] at hce1
              exact Bool.noConfusion hce1
            · obtain ⟨hph, hlast, hexit, hnit⟩ := ih1 e1 he hce1
              have hne : (simplexLoop T0 n maxiter phase tol fuel
                  (pivotAt T pivrow (argminFirst (lastRowCoeffs T))) (nit + 1) 0).trace ≠ [] := by
                intro hnil
                rw [hnil] at hlast
                exact Option.noConfusion hlast
              refine ⟨hph, ?_, hexit, hnit⟩
              rw [getLast?_cons_of_ne_nil _ _ hne]
              exact hlast
          · rintro ⟨hex, hlt⟩
            obtain ⟨e2, hlast, hcomp⟩ := ih2 ⟨hex, hlt⟩
            have hne : (simplexLoop T0 n maxiter phase tol fuel
                (pivotAt T pivrow (argminFirst (lastRowCoeffs T))) (nit + 1) 0).trace ≠ [] := by
              intro hnil
              rw [hnil] at hlast
              exact Option.noConfusion hlast
            refine ⟨e2, ?_, hcomp⟩
            rw [getLast?_cons_of_ne_nil _ _ hne]
            exact hlast
          · omega
          · simp only [List.length_cons]
            by_cases hc : (simplexLoop T0 n maxiter phase tol fuel
                (pivotAt T pivrow (argminFirst (lastRowCoeffs T))) (nit + 1) 0).exit = .fell ∧
                (simplexLoop T0 n maxiter phase tol fuel
                  (pivotAt T pivrow (argminFirst (lastRowCoeffs T))) (nit + 1) 0).nit < maxiter
            · rw [if_pos hc] at ih4
              rw [if_pos hc]
              omega
            · rw [if_neg hc] at ih4
              rw [if_neg hc]
              omega

theorem status_eq_zero_iff (ex : LoopExit) (nit maxiter : ℕ) :
    ((match ex with
      | LoopExit.brk => (3 : ℤ)
      | LoopExit.fell => if maxiter ≤ nit then 1 else 0) = 0) ↔
      (ex = LoopExit.fell ∧ nit < maxiter) := by
  cases ex
  · constructor
    · intro h
      have h3 : (3 : ℤ) = 0 := h
      exact absurd h3 (by decide)
    · rintro ⟨hx, _⟩
      exact LoopExit.noConfusion hx
  · by_cases hle : maxiter ≤ nit
    · rw [if_pos hle]
      constructor
      · intro h
        have h1 : (1 : ℤ) = 0 := h
        exact absurd h1 (by decide)
      · rintro ⟨_, hlt⟩
        omega
    · rw [if_neg hle]
      exact ⟨fun _ => ⟨rfl, by omega⟩, fun _ => rfl⟩

/-- Claim C8, counterexample.  On the Phase 1 run over `exPh1T` the engine
makes two callback calls; the claim says the last Phase 1 call carries a
true completion flag, but BOTH calls carry `complete = false` — including
the final one, made in the pass that determines status 0 — because the
payload sets `complete = (not status is None) and phase == 2` (line 352),
which is always false in Phase 1. -/
theorem claim8_counterexample :
    (lpsimplexCore exPh1T 2 1 1 20 1 ⟨1, 10 ^ 12⟩ 0).trace.map CBEntry.complete =
      [false, false] ∧
    (lpsimplexCore exPh1T 2 1 1 20 1 ⟨1, 10 ^ 12⟩ 0).status = 0 := by
  decide

/-- Claim C8, amended: the engine invokes the callback once per loop pass
that selects a pivot, before applying it (the unbounded `break` pass makes
no call), in both phases; the payload's completion flag equals "a terminal
status has been determined AND the phase is 2".  Hence every Phase 1 call
carries a false completion flag, and in Phase 2 the flag is true exactly
on the final call of a run that terminates optimally (status 0).  The call
count equals the number of pivots performed, plus one extra (final,
non-pivoting) call when the run ends with status 0. -/
theorem claim8_theorem (T : Mat) (n ns na maxiter phase : ℕ) (tol : Frac) (nit0 : ℕ) :
    (phase = 1 → ∀ e ∈ (lpsimplexCore T n ns na maxiter phase tol nit0).trace,
        e.complete = false) ∧
    (phase = 2 → ∀ e ∈ (lpsimplexCore T n ns na maxiter phase tol nit0).trace,
        (e.complete = true ↔
          ((lpsimplexCore T n ns na maxiter phase tol nit0).trace.getLast? = some e ∧
           (lpsimplexCore T n ns na maxiter phase tol nit0).status = 0))) ∧
    ((lpsimplexCore T n ns na maxiter phase tol nit0).trace.length + nit0 =
      (lpsimplexCore T n ns na maxiter phase tol nit0).nit +
        (if (lpsimplexCore T n ns na maxiter phase tol nit0).status = 0 then 1 else 0)) := by
  obtain ⟨hs1, hs2, hs3, hs4⟩ :=
    simplexLoop_spec T n maxiter phase tol (maxiter - nit0) T nit0 0 (by omega)
  have htr : (lpsimplexCore T n ns na maxiter phase tol nit0).trace =
      (simplexLoop T n maxiter phase tol (maxiter - nit0) T nit0 0).trace := rfl
  have hnit : (lpsimplexCore T n ns na maxiter phase tol nit0).nit =
      (simplexLoop T n maxiter phase tol (maxiter - nit0) T nit0 0).nit := rfl
  have hbr : (lpsimplexCore T n ns na maxiter phase tol nit0).status = 0 ↔
      ((simplexLoop T n maxiter phase tol (maxiter - nit0) T nit0 0).exit = .fell ∧
       (simplexLoop T n maxiter phase tol (maxiter - nit0) T nit0 0).nit < maxiter) :=
    status_eq_zero_iff _ _ maxiter
  refine ⟨?_, ?_, ?_⟩
  · intro hph e he
    rw [htr] at he
    cases hce : e.complete
    · rfl
    · obtain ⟨hph2, _, _, _⟩ := hs1 e he hce
      rw [hph] at hph2
      exact absurd hph2 (by decide)
  · intro hph e he
    rw [htr] at he
    constructor
    · intro hce
      obtain ⟨_, hlast, hexit, hnitlt⟩ := hs1 e he hce
      exact ⟨by rw [htr]; exact hlast, hbr.mpr ⟨hexit, hnitlt⟩⟩
    · rintro ⟨hlast, hst0⟩
      obtain ⟨hexit, hnitlt⟩ := hbr.mp hst0
      obtain ⟨e2, hlast2, hcomp⟩ := hs2 ⟨hexit, hnitlt⟩
      rw [htr] at hlast
      rw [hlast] at hlast2
      have he2 : e = e2 := Option.some.inj hlast2
      rw [he2, hcomp, hph]
      rfl
  · by_cases hc : ((simplexLoop T n maxiter phase tol (maxiter - nit0) T nit0 0).exit = .fell ∧
        (simplexLoop T n maxiter phase tol (maxiter - nit0) T nit0 0).nit < maxiter)
    · rw [if_pos hc] at hs4
      rw [if_pos (hbr.mpr hc)]
      exact hs4
    · rw [if_neg hc] at hs4
      rw [if_neg (fun h0 => hc (hbr.mp h0))]
      exact hs4

/-- Claim C8, witness: the first Phase 1 callback payload of the `exPh1T`
run carries a false completion flag. -/
theorem claim8_witness :
    (⟨exPh1T, 0, 1, (0, 0), false⟩ : CBEntry).complete = false :=
  (claim8_theorem exPh1T 2 1 1 20 1 ⟨1, 10 ^ 12⟩ 0).1 rfl
    ⟨exPh1T, 0, 1, (0, 0), false⟩ (by decide)

end Linprog
